import Mathlib

/-!
Verification of the architecture-construction logic of `models/resnet.py`
(shiftresnet-cifar).

The Python file builds CIFAR ResNet / ShiftResNet models.  We embed:
  * the construction of each module (`BasicBlock.__init__`, `ShiftConv.__init__`,
    `ResNet.__init__`, `ResNet._make_layer`, `ResNetWrapper`, the ten factory
    functions) as Lean functions producing explicit records of the layer
    hyper-parameters that the Python constructors compute and store;
  * a shape semantics of the `forward` methods: each external layer
    (`nn.Conv2d`, `nn.BatchNorm2d`, `F.relu`, `F.avg_pool2d`, `nn.Linear`,
    the shift primitive, elementwise in-place addition with broadcasting)
    acts on tensor shapes exactly as the framework specifies;
  * a value semantics of the block `forward` methods parameterized over the
    (framework-owned) layer functions, used to settle dataflow claims.

Python `float` arithmetic (the `reduction ** 0.5` channel computation) is
modelled by exact real/rational arithmetic; Python `int()` truncation of a
nonnegative value is the floor.  Python-level exceptions raised by the code
in this repository (division by zero, `int()` of a complex value, list index
out of range) are modelled with `Except String`.
-/

/-- Python `int(q)` for the nonnegative values arising here: truncation
toward zero agrees with the floor on nonnegative arguments. -/
def pyIntNat (q : ℚ) : ℕ :=
  q.floor.toNat

lemma pyIntNat_def (q : ℚ) : pyIntNat q = (⌊q⌋).toNat := by
  have h : ⌊q⌋ = q.floor := by rw [Rat.floor_def, Rat.floor_def']
  rw [pyIntNat, h]

/-- The channel width `int(base / float(reduction) ** 0.5)` computed by
`ResNet.__init__`, evaluated exactly: the greatest `n` with
`n ^ 2 * reduction ≤ base ^ 2`, which for `reduction > 0` equals
`⌊base / sqrt reduction⌋` (proved below).  The search bound
`base * reduction.den` dominates `base / sqrt reduction`. -/
def netWidth (base : ℕ) (reduction : ℚ) : ℕ :=
  Nat.findGreatest (fun n => (n : ℚ) ^ 2 * reduction ≤ (base : ℚ) ^ 2)
    (base * reduction.den)

/-- Shape of a 4-d tensor: batch, channels, height, width. -/
structure Shape where
  n : ℕ
  c : ℕ
  h : ℕ
  w : ℕ
  deriving DecidableEq, Repr

/-- Hyper-parameters of an `nn.Conv2d` layer as instantiated by this code. -/
structure Conv2dM where
  in_channels : ℕ
  out_channels : ℕ
  kernel_size : ℕ
  stride : ℕ
  padding : ℕ
  bias : Bool
  deriving DecidableEq, Repr

/-- Hyper-parameters of the external `GenericShift_cuda` module. -/
structure ShiftM where
  kernel_size : ℕ
  dilate_factor : ℕ
  deriving DecidableEq, Repr

/-- Shape action of `nn.Conv2d`: requires the channel count to match and the
(padded) spatial extent to cover the kernel; output spatial size is
`(d + 2 * padding - kernel) / stride + 1` with floor division. -/
def conv2dShape (cv : Conv2dM) (s : Shape) : Option Shape :=
  if s.c = cv.in_channels ∧ cv.kernel_size ≤ s.h + 2 * cv.padding ∧
      cv.kernel_size ≤ s.w + 2 * cv.padding ∧ 1 ≤ cv.stride then
    some ⟨s.n, cv.out_channels,
      (s.h + 2 * cv.padding - cv.kernel_size) / cv.stride + 1,
      (s.w + 2 * cv.padding - cv.kernel_size) / cv.stride + 1⟩
  else none

/-- Shape action of `nn.BatchNorm2d`: channel count must match, shape kept. -/
def bnShape (features : ℕ) (s : Shape) : Option Shape :=
  if s.c = features then some s else none

/-- Shape rule of the in-place addition `out += shortcut`: the right-hand
side must broadcast to the left-hand shape (each dimension equal or 1);
the result keeps the left-hand shape. -/
def addInPlaceShape (lhs rhs : Shape) : Option Shape :=
  if (rhs.n = lhs.n ∨ rhs.n = 1) ∧ (rhs.c = lhs.c ∨ rhs.c = 1) ∧
      (rhs.h = lhs.h ∨ rhs.h = 1) ∧ (rhs.w = lhs.w ∨ rhs.w = 1) then
    some lhs
  else none

/-- Shape action of `F.avg_pool2d(out, k)` (stride defaults to `k`). -/
def avgPool2dShape (k : ℕ) (s : Shape) : Option Shape :=
  if 1 ≤ k ∧ k ≤ s.h ∧ k ≤ s.w then some ⟨s.n, s.c, s.h / k, s.w / k⟩ else none

/-- Shape action of `nn.Linear (inF, outF)` on a 2-d `(batch, features)`. -/
def linearShape (l : ℕ × ℕ) (p : ℕ × ℕ) : Option (ℕ × ℕ) :=
  if p.2 = l.1 then some (p.1, l.2) else none

/-- The `BasicBlock` module: fields computed and stored by
`BasicBlock.__init__`.  `shortcut = none` models the empty
`nn.Sequential()` (identity); `some (conv, bn)` models the projection. -/
structure BasicBlock where
  in_planes : ℕ
  planes : ℕ
  stride : ℕ
  expansion : ℚ
  dim : ℕ
  conv1 : Conv2dM
  bn1 : ℕ
  conv2 : Conv2dM
  bn2 : ℕ
  shortcut : Option (Conv2dM × ℕ)
  deriving DecidableEq, Repr

/-- `BasicBlock.__init__(in_planes, planes, stride, reduction)`.
`self.expansion = 1 / float(reduction)` raises `ZeroDivisionError` when
`reduction == 0`; `dim = int(self.expansion * planes)`. -/
def BasicBlock.init (in_planes planes stride : ℕ) (reduction : ℚ) :
    Except String BasicBlock :=
  if reduction = 0 then
    Except.error "ZeroDivisionError: float division by zero"
  else
    let expansion : ℚ := 1 / reduction
    let dim : ℕ := pyIntNat (expansion * (planes : ℚ))
    Except.ok
      { in_planes := in_planes, planes := planes, stride := stride,
        expansion := expansion, dim := dim,
        conv1 := ⟨in_planes, dim, 3, stride, 1, false⟩, bn1 := dim,
        conv2 := ⟨dim, planes, 3, 1, 1, false⟩, bn2 := planes,
        shortcut :=
          if stride ≠ 1 ∨ in_planes ≠ dim then
            some (⟨in_planes, planes, 1, stride, 0, false⟩, planes)
          else none }

/-- Shape action of a block shortcut: identity, or 1x1 conv then batchnorm. -/
def shortcutShape (sc : Option (Conv2dM × ℕ)) (s : Shape) : Option Shape :=
  match sc with
  | none => some s
  | some (cv, features) => (conv2dShape cv s).bind (bnShape features)

/-- Shape of the `BasicBlock` main path
`bn2(conv2(relu(bn1(conv1 x))))`; `F.relu` keeps the shape. -/
def BasicBlock.mainPathShape (b : BasicBlock) (s : Shape) : Option Shape :=
  (conv2dShape b.conv1 s).bind (fun o => (bnShape b.bn1 o).bind (fun o2 =>
    (conv2dShape b.conv2 o2).bind (bnShape b.bn2)))

/-- Shape of `BasicBlock.forward`: main path, then `out += self.shortcut(x)`
(in-place, broadcasting), then a shape-preserving `F.relu`. -/
def BasicBlock.forwardShape (b : BasicBlock) (s : Shape) : Option Shape :=
  (b.mainPathShape s).bind (fun o =>
    (shortcutShape b.shortcut s).bind (fun sc => addInPlaceShape o sc))

/-- The `ShiftConv` module: fields computed and stored by
`ShiftConv.__init__`. -/
structure ShiftConv where
  in_planes : ℕ
  out_planes : ℕ
  stride : ℕ
  expansion : ℚ
  mid_planes : ℕ
  conv1 : Conv2dM
  bn1 : ℕ
  shift2 : ShiftM
  conv2 : Conv2dM
  bn2 : ℕ
  shortcut : Option (Conv2dM × ℕ)
  deriving DecidableEq, Repr

/-- `ShiftConv.__init__(in_planes, out_planes, stride, expansion)`:
`mid_planes = int(out_planes * expansion)`; both convolutions have
`kernel_size=1`; `shift2 = GenericShift_cuda(kernel_size=3, dilate_factor=1)`. -/
def ShiftConv.init (in_planes out_planes stride : ℕ) (expansion : ℚ) :
    ShiftConv :=
  let mid_planes : ℕ := pyIntNat ((out_planes : ℚ) * expansion)
  { in_planes := in_planes, out_planes := out_planes, stride := stride,
    expansion := expansion, mid_planes := mid_planes,
    conv1 := ⟨in_planes, mid_planes, 1, 1, 0, false⟩, bn1 := mid_planes,
    shift2 := ⟨3, 1⟩,
    conv2 := ⟨mid_planes, out_planes, 1, stride, 0, false⟩, bn2 := out_planes,
    shortcut :=
      if stride ≠ 1 ∨ in_planes ≠ out_planes then
        some (⟨in_planes, out_planes, 1, stride, 0, false⟩, out_planes)
      else none }

/-- Shape of the `ShiftConv` main path
`relu(bn2(conv2(shift2(relu(bn1(conv1 x))))))`.
Modelled from the spec: the external shift primitive is a parameter-free
spatial operation and keeps the tensor shape. -/
def ShiftConv.mainPathShape (c : ShiftConv) (s : Shape) : Option Shape :=
  (conv2dShape c.conv1 s).bind (fun o => (bnShape c.bn1 o).bind (fun o2 =>
    (conv2dShape c.conv2 o2).bind (bnShape c.bn2)))

/-- Shape of `ShiftConv.forward`: shortcut is evaluated first in the source,
then the main path, then `x += shortcut` (in-place, broadcasting). -/
def ShiftConv.forwardShape (c : ShiftConv) (s : Shape) : Option Shape :=
  (shortcutShape c.shortcut s).bind (fun sc =>
    (c.mainPathShape s).bind (fun o => addInPlaceShape o sc))

/-- A block of the assembled network: either kind the code constructs. -/
inductive Block where
  | basic (b : BasicBlock)
  | shiftc (c : ShiftConv)
  deriving DecidableEq, Repr

/-- Shape action of a block `forward`. -/
def Block.forwardShape : Block → Shape → Option Shape
  | Block.basic b, s => b.forwardShape s
  | Block.shiftc c, s => c.forwardShape s

/-- Output channel width of a block. -/
def Block.planes : Block → ℕ
  | Block.basic b => b.planes
  | Block.shiftc c => c.out_planes

/-- Stride of a block. -/
def Block.stride : Block → ℕ
  | Block.basic b => b.stride
  | Block.shiftc c => c.stride

/-- The main-path convolutions of a block (projection shortcuts excluded). -/
def Block.mainConvs : Block → List Conv2dM
  | Block.basic b => [b.conv1, b.conv2]
  | Block.shiftc c => [c.conv1, c.conv2]

/-- The `ResNet` module: fields computed and stored by `ResNet.__init__`. -/
structure ResNet where
  conv1 : Conv2dM
  bn1 : ℕ
  layer1 : List Block
  layer2 : List Block
  layer3 : List Block
  linear : ℕ × ℕ
  deriving DecidableEq, Repr

/-- The loop of `ResNet._make_layer`: one block per entry of `strides`,
threading `self.in_planes` (set to `planes` after each block). -/
def makeLayerAux (block : ℕ → ℕ → ℕ → Except String Block)
    (in_planes planes : ℕ) : List ℕ → Except String (List Block × ℕ)
  | [] => Except.ok ([], in_planes)
  | stride :: rest =>
    (block in_planes planes stride).bind (fun b =>
      (makeLayerAux block planes planes rest).map (fun p => (b :: p.1, p.2)))

/-- `ResNet._make_layer(block, planes, num_blocks, stride)`:
`strides = [stride] + [1] * (num_blocks - 1)` (as in Python, `num_blocks = 0`
still yields the single entry `[stride]`); returns the blocks and the final
`self.in_planes`. -/
def ResNet.make_layer (block : ℕ → ℕ → ℕ → Except String Block)
    (in_planes planes num_blocks stride : ℕ) :
    Except String (List Block × ℕ) :=
  makeLayerAux block in_planes planes (stride :: List.replicate (num_blocks - 1) 1)

/-- Python list indexing `xs[i]`, raising `IndexError` past the end. -/
def pyIndex (xs : List ℕ) (i : ℕ) : Except String ℕ :=
  match xs.get? i with
  | some v => Except.ok v
  | none => Except.error "IndexError: list index out of range"

/-- `ResNet.__init__(block, num_blocks, reduction, num_classes)`.
`float(reduction) ** 0.5` yields a complex value for `reduction < 0`, so
the subsequent `int(16 / ...)` raises `TypeError`; for `reduction == 0` the
division `16 / 0.0` raises `ZeroDivisionError`.  Otherwise the three stage
widths are `int(base / sqrt reduction)` for base 16, 32, 64 (`netWidth`),
`self.in_planes` starts at the 16-width and is threaded through the three
`_make_layer` calls, and `self.linear = nn.Linear(int(64 / ...), num_classes)`. -/
def ResNet.init (block : ℕ → ℕ → ℕ → Except String Block)
    (num_blocks : List ℕ) (reduction : ℚ) (num_classes : ℕ) :
    Except String ResNet :=
  if reduction < 0 then
    Except.error "TypeError: int() argument is complex"
  else if reduction = 0 then
    Except.error "ZeroDivisionError: float division by zero"
  else
    let w16 := netWidth 16 reduction
    let w32 := netWidth 32 reduction
    let w64 := netWidth 64 reduction
    (pyIndex num_blocks 0).bind (fun n1 =>
      (ResNet.make_layer block w16 w16 n1 1).bind (fun p1 =>
        (pyIndex num_blocks 1).bind (fun n2 =>
          (ResNet.make_layer block p1.2 w32 n2 2).bind (fun p2 =>
            (pyIndex num_blocks 2).bind (fun n3 =>
              (ResNet.make_layer block p2.2 w64 n3 2).map (fun p3 =>
                { conv1 := ⟨3, w16, 3, 1, 1, false⟩, bn1 := w16,
                  layer1 := p1.1, layer2 := p2.1, layer3 := p3.1,
                  linear := (w64, num_classes) }))))))

/-- Shape action of a `nn.Sequential` stage of blocks. -/
def seqForward (bs : List Block) (s : Shape) : Option Shape :=
  bs.foldlM (fun t b => Block.forwardShape b t) s

/-- Shape of `ResNet.forward`: conv1, bn1 (with shape-preserving relu),
the three stages, `F.avg_pool2d(out, 8)`, `out.view(out.size(0), -1)`
(flattening to `c * h * w` features), and the final linear layer. -/
def ResNet.forwardShape (m : ResNet) (s : Shape) : Option (ℕ × ℕ) :=
  (conv2dShape m.conv1 s).bind (fun o => (bnShape m.bn1 o).bind (fun o1 =>
    (seqForward m.layer1 o1).bind (fun o2 => (seqForward m.layer2 o2).bind (fun o3 =>
      (seqForward m.layer3 o3).bind (fun o4 => (avgPool2dShape 8 o4).bind (fun o5 =>
        linearShape m.linear (o5.n, o5.c * o5.h * o5.w)))))))

/-- `ResNetWrapper(num_blocks, reduction, reduction_mode, num_classes)`:
with `reduction_mode == 'block'` the reduction goes to each `BasicBlock`
and the network is built unreduced; any other mode builds a
network-reduced `ResNet` whose blocks use the default reduction 1. -/
def ResNetWrapper (num_blocks : List ℕ) (reduction : ℚ)
    (reduction_mode : String) (num_classes : ℕ) : Except String ResNet :=
  if reduction_mode = "block" then
    ResNet.init
      (fun in_planes planes stride =>
        (BasicBlock.init in_planes planes stride reduction).map Block.basic)
      num_blocks 1 num_classes
  else
    ResNet.init
      (fun in_planes planes stride =>
        (BasicBlock.init in_planes planes stride 1).map Block.basic)
      num_blocks reduction num_classes

/-- `ResNet20`. -/
def ResNet20 (reduction : ℚ) (reduction_mode : String) (num_classes : ℕ) :
    Except String ResNet :=
  ResNetWrapper [3, 3, 3] reduction reduction_mode num_classes

/-- `ResNet32`. -/
def ResNet32 (reduction : ℚ) (reduction_mode : String) (num_classes : ℕ) :
    Except String ResNet :=
  ResNetWrapper [5, 5, 5] reduction reduction_mode num_classes

/-- `ResNet44`. -/
def ResNet44 (reduction : ℚ) (reduction_mode : String) (num_classes : ℕ) :
    Except String ResNet :=
  ResNetWrapper [7, 7, 7] reduction reduction_mode num_classes

/-- `ResNet56`. -/
def ResNet56 (reduction : ℚ) (reduction_mode : String) (num_classes : ℕ) :
    Except String ResNet :=
  ResNetWrapper [9, 9, 9] reduction reduction_mode num_classes

/-- `ResNet110`. -/
def ResNet110 (reduction : ℚ) (reduction_mode : String) (num_classes : ℕ) :
    Except String ResNet :=
  ResNetWrapper [18, 18, 18] reduction reduction_mode num_classes

/-- The block lambda of the `ShiftResNet` factories: a `ShiftConv` with the
captured expansion; its construction raises nothing in this code. -/
def shiftBlockFun (expansion : ℚ) : ℕ → ℕ → ℕ → Except String Block :=
  fun in_planes out_planes stride =>
    Except.ok (Block.shiftc (ShiftConv.init in_planes out_planes stride expansion))

/-- `ShiftResNet20`. -/
def ShiftResNet20 (expansion : ℚ) (num_classes : ℕ) : Except String ResNet :=
  ResNet.init (shiftBlockFun expansion) [3, 3, 3] 1 num_classes

/-- `ShiftResNet32`. -/
def ShiftResNet32 (expansion : ℚ) (num_classes : ℕ) : Except String ResNet :=
  ResNet.init (shiftBlockFun expansion) [5, 5, 5] 1 num_classes

/-- `ShiftResNet44`. -/
def ShiftResNet44 (expansion : ℚ) (num_classes : ℕ) : Except String ResNet :=
  ResNet.init (shiftBlockFun expansion) [7, 7, 7] 1 num_classes

/-- `ShiftResNet56`. -/
def ShiftResNet56 (expansion : ℚ) (num_classes : ℕ) : Except String ResNet :=
  ResNet.init (shiftBlockFun expansion) [9, 9, 9] 1 num_classes

/-- `ShiftResNet110`. -/
def ShiftResNet110 (expansion : ℚ) (num_classes : ℕ) : Except String ResNet :=
  ResNet.init (shiftBlockFun expansion) [18, 18, 18] 1 num_classes

/-- Elementwise `F.relu` on integer-valued tensors over an index type. -/
def reluV {ι : Type} (t : ι → ℤ) : ι → ℤ :=
  fun i => max (t i) 0

/-- Value semantics of `BasicBlock.forward`, parameterized over the
framework-owned layer functions: `out = relu(bn1(conv1 x))`;
`out = bn2(conv2 out)`; `out += shortcut x`; `out = relu out`. -/
def BasicBlock.forwardV {ι : Type}
    (conv1 bn1 conv2 bn2 sc : (ι → ℤ) → ι → ℤ) (x : ι → ℤ) : ι → ℤ :=
  let out := reluV (bn1 (conv1 x))
  let out2 := bn2 (conv2 out)
  let out3 := fun i => out2 i + sc x i
  reluV out3

/-- The two-convolution main path of `BasicBlock`. -/
def BasicBlock.mainPathV {ι : Type}
    (conv1 bn1 conv2 bn2 : (ι → ℤ) → ι → ℤ) (x : ι → ℤ) : ι → ℤ :=
  bn2 (conv2 (reluV (bn1 (conv1 x))))

/-- Value semantics of `ShiftConv.forward`: `shortcut = self.shortcut x`;
`x = relu(bn1(conv1 x))`; `x = relu(bn2(conv2(shift2 x)))`;
`x += shortcut`. -/
def ShiftConv.forwardV {ι : Type}
    (conv1 bn1 shift2 conv2 bn2 sc : (ι → ℤ) → ι → ℤ) (x : ι → ℤ) : ι → ℤ :=
  let shortcut := sc x
  let x1 := reluV (bn1 (conv1 x))
  let x2 := reluV (bn2 (conv2 (shift2 x1)))
  fun i => x2 i + shortcut i

/-- The two-convolution main path of `ShiftConv`. -/
def ShiftConv.mainPathV {ι : Type}
    (conv1 bn1 shift2 conv2 bn2 : (ι → ℤ) → ι → ℤ) (x : ι → ℤ) : ι → ℤ :=
  reluV (bn2 (conv2 (shift2 (reluV (bn1 (conv1 x))))))

/-- Spec-side definition, following the claim wording: a residual block
computes `output = F(input) + shortcut(input)`. -/
def specBlockOutput {ι : Type} (f sc : (ι → ℤ) → ι → ℤ) (x : ι → ℤ) : ι → ℤ :=
  fun i => f x i + sc x i

/-- Learned parameter count of a convolution as instantiated here
(`bias=False` throughout): `in * out * k * k` weights. -/
def Conv2dM.paramCount (cv : Conv2dM) : ℕ :=
  cv.in_channels * cv.out_channels * cv.kernel_size * cv.kernel_size +
    (if cv.bias then cv.out_channels else 0)

/-- Modelled from the spec: the external shift primitive
(`GenericShift_cuda`, not part of this repository) is a parameter-free
spatial operation, so it holds no learned parameters. -/
def ShiftM.paramCount (_ : ShiftM) : ℕ :=
  0

/-- Count of parameterized convolution/linear layers, projection shortcuts
not counted: the initial convolution, the main-path convolutions of every
block, and the final linear layer. -/
def ResNet.paramLayerCount (m : ResNet) : ℕ :=
  1 + (((m.layer1 ++ m.layer2 ++ m.layer3).map
    (fun b => (Block.mainConvs b).length)).sum) + 1

/-! ### The width computation equals the floor of `base / sqrt reduction` -/

lemma netWidth_pred_iff (base n : ℕ) (r : ℚ) (hr : 0 < r) :
    ((n : ℚ) ^ 2 * r ≤ (base : ℚ) ^ 2) ↔
      (n : ℝ) ≤ (base : ℝ) / Real.sqrt (r : ℝ) := by
  have hr' : (0 : ℝ) < (r : ℝ) := by exact_mod_cast hr
  have hs : 0 < Real.sqrt (r : ℝ) := Real.sqrt_pos.mpr hr'
  rw [le_div_iff₀ hs]
  constructor
  · intro hq
    have hq' : (n : ℝ) ^ 2 * (r : ℝ) ≤ (base : ℝ) ^ 2 := by exact_mod_cast hq
    calc (n : ℝ) * Real.sqrt (r : ℝ)
        = Real.sqrt ((n : ℝ) ^ 2 * (r : ℝ)) := by
          rw [Real.sqrt_mul (sq_nonneg _), Real.sqrt_sq (Nat.cast_nonneg n)]
      _ ≤ Real.sqrt ((base : ℝ) ^ 2) := Real.sqrt_le_sqrt hq'
      _ = (base : ℝ) := Real.sqrt_sq (Nat.cast_nonneg base)
  · intro hle
    have hsq : ((n : ℝ) * Real.sqrt (r : ℝ)) ^ 2 ≤ (base : ℝ) ^ 2 :=
      pow_le_pow_left₀ (by positivity) hle 2
    rw [mul_pow, Real.sq_sqrt hr'.le] at hsq
    exact_mod_cast hsq

lemma div_sqrt_le_bound (base : ℕ) (r : ℚ) (hr : 0 < r) :
    (base : ℝ) / Real.sqrt (r : ℝ) ≤ ((base * r.den : ℕ) : ℝ) := by
  have hr' : (0 : ℝ) < (r : ℝ) := by exact_mod_cast hr
  have hs : 0 < Real.sqrt (r : ℝ) := Real.sqrt_pos.mpr hr'
  have hden : (1 : ℝ) ≤ (r.den : ℝ) := by exact_mod_cast r.pos
  have hnum : (1 : ℝ) ≤ (r.num : ℝ) := by
    have : 0 < r.num := Rat.num_pos.mpr hr
    exact_mod_cast this
  have hrden : (1 : ℝ) / ((r.den : ℝ)) ^ 2 ≤ (r : ℝ) := by
    have hcast : (r : ℝ) = (r.num : ℝ) / (r.den : ℝ) := by
      rw [Rat.cast_def]
    rw [hcast, div_le_div_iff₀ (by positivity) (by positivity)]
    nlinarith
  have hsroot : 1 / (r.den : ℝ) ≤ Real.sqrt (r : ℝ) := by
    rw [Real.le_sqrt (by positivity) hr'.le, div_pow, one_pow]
    exact hrden
  have h1 : (1 : ℝ) ≤ Real.sqrt (r : ℝ) * (r.den : ℝ) :=
    (div_le_iff₀ (by positivity)).mp hsroot
  rw [div_le_iff₀ hs]
  push_cast
  nlinarith [mul_le_mul_of_nonneg_left h1 (Nat.cast_nonneg (α := ℝ) base)]


theorem netWidth_eq_floor (base : ℕ) (r : ℚ) (hr : 0 < r) :
    netWidth base r = Nat.floor ((base : ℝ) / Real.sqrt (r : ℝ)) := by
  have hx0 : (0 : ℝ) ≤ (base : ℝ) / Real.sqrt (r : ℝ) := by positivity
  rw [netWidth, Nat.findGreatest_eq_iff]
  refine ⟨?_, ?_, ?_⟩
  · calc Nat.floor ((base : ℝ) / Real.sqrt (r : ℝ))
        ≤ Nat.floor (((base * r.den : ℕ) : ℝ)) :=
          Nat.floor_mono (div_sqrt_le_bound base r hr)
      _ = base * r.den := Nat.floor_natCast _
  · intro _
    rw [netWidth_pred_iff base _ r hr]
    exact Nat.floor_le hx0
  · intro k hk _
    rw [netWidth_pred_iff base _ r hr]
    intro hle
    exact absurd (Nat.le_floor hle) (by omega)

lemma netWidth_mono_base (b1 b2 : ℕ) (r : ℚ) (hr : 0 < r) (h : b1 ≤ b2) :
    netWidth b1 r ≤ netWidth b2 r := by
  rw [netWidth_eq_floor _ _ hr, netWidth_eq_floor _ _ hr]
  have hs : 0 < Real.sqrt (r : ℝ) := Real.sqrt_pos.mpr (by exact_mod_cast hr)
  exact Nat.floor_mono ((div_le_div_iff_of_pos_right hs).mpr (by exact_mod_cast h))

lemma netWidth_anti (b : ℕ) (r1 r2 : ℚ) (h1 : 0 < r1) (h12 : r1 ≤ r2) :
    netWidth b r2 ≤ netWidth b r1 := by
  have h2 : 0 < r2 := lt_of_lt_of_le h1 h12
  rw [netWidth_eq_floor _ _ h1, netWidth_eq_floor _ _ h2]
  have hs1 : 0 < Real.sqrt (r1 : ℝ) := Real.sqrt_pos.mpr (by exact_mod_cast h1)
  have hmono : Real.sqrt (r1 : ℝ) ≤ Real.sqrt (r2 : ℝ) :=
    Real.sqrt_le_sqrt (by exact_mod_cast h12)
  exact Nat.floor_mono (div_le_div_of_nonneg_left (Nat.cast_nonneg b) hs1 hmono)

lemma netWidth_le_base (b : ℕ) (r : ℚ) (hr : 1 ≤ r) : netWidth b r ≤ b := by
  have hr0 : (0 : ℚ) < r := lt_of_lt_of_le one_pos hr
  rw [netWidth_eq_floor _ _ hr0]
  have h1 : (1 : ℝ) ≤ Real.sqrt (r : ℝ) := by
    rw [show (1 : ℝ) = Real.sqrt 1 from (Real.sqrt_one).symm]
    exact Real.sqrt_le_sqrt (by exact_mod_cast hr)
  calc Nat.floor ((b : ℝ) / Real.sqrt (r : ℝ))
      ≤ Nat.floor ((b : ℝ)) := Nat.floor_mono (div_le_self (Nat.cast_nonneg b) h1)
    _ = b := Nat.floor_natCast b

lemma netWidth_one (b : ℕ) : netWidth b 1 = b := by
  rw [netWidth_eq_floor _ _ one_pos]
  norm_num [Real.sqrt_one]

/-! ### Shape behaviour of a single block -/

lemma conv2dShape_ok (ic oc k st pad : ℕ) (bias : Bool) (s : Shape)
    (hc : s.c = ic) (hh : k ≤ s.h + 2 * pad) (hw : k ≤ s.w + 2 * pad)
    (hst : 1 ≤ st) :
    conv2dShape ⟨ic, oc, k, st, pad, bias⟩ s =
      some ⟨s.n, oc, (s.h + 2 * pad - k) / st + 1, (s.w + 2 * pad - k) / st + 1⟩ := by
  simp [conv2dShape, hc, hh, hw, hst]

lemma bnShape_ok (f : ℕ) (s : Shape) (hc : s.c = f) : bnShape f s = some s := by
  simp [bnShape, hc]

lemma addInPlaceShape_self (s : Shape) : addInPlaceShape s s = some s := by
  simp [addInPlaceShape]


lemma conv3x3_shape (ic oc st : ℕ) (bias : Bool) (N c h w : ℕ) (hc : c = ic)
    (hh : 1 ≤ h) (hw : 1 ≤ w) (hst : 1 ≤ st) :
    conv2dShape ⟨ic, oc, 3, st, 1, bias⟩ ⟨N, c, h, w⟩ =
      some ⟨N, oc, (h - 1) / st + 1, (w - 1) / st + 1⟩ := by
  have e1 : h + 2 * 1 - 3 = h - 1 := by omega
  have e2 : w + 2 * 1 - 3 = w - 1 := by omega
  have h3 : 3 ≤ h + 2 * 1 := by omega
  have w3 : 3 ≤ w + 2 * 1 := by omega
  simp [conv2dShape, hc, hst, h3, w3, e1, e2]

lemma conv1x1_shape (ic oc st : ℕ) (bias : Bool) (N c h w : ℕ) (hc : c = ic)
    (hh : 1 ≤ h) (hw : 1 ≤ w) (hst : 1 ≤ st) :
    conv2dShape ⟨ic, oc, 1, st, 0, bias⟩ ⟨N, c, h, w⟩ =
      some ⟨N, oc, (h - 1) / st + 1, (w - 1) / st + 1⟩ := by
  have e1 : h + 2 * 0 - 1 = h - 1 := by omega
  have e2 : w + 2 * 0 - 1 = w - 1 := by omega
  have h3 : 1 ≤ h + 2 * 0 := by omega
  have w3 : 1 ≤ w + 2 * 0 := by omega
  rw [conv2dShape, if_pos ⟨hc, h3, w3, hst⟩]
  simp [e1, e2]

theorem basic_forward_shape (ip pl st : ℕ) (r : ℚ) (hr : r ≠ 0) (b : BasicBlock)
    (hb : BasicBlock.init ip pl st r = Except.ok b)
    (N h w : ℕ) (hh : 1 ≤ h) (hw : 1 ≤ w) (hst : 1 ≤ st)
    (hid : st = 1 → ip = b.dim → pl = ip) :
    b.forwardShape ⟨N, ip, h, w⟩ =
      some ⟨N, pl, (h - 1) / st + 1, (w - 1) / st + 1⟩ := by
  rw [BasicBlock.init, if_neg hr] at hb
  simp only [Except.ok.injEq] at hb
  subst hb
  simp only at hid
  set d := pyIntNat (1 / r * (pl : ℚ)) with hd
  have hh' : 1 ≤ (h - 1) / st + 1 := Nat.le_add_left 1 _
  have hw' : 1 ≤ (w - 1) / st + 1 := Nat.le_add_left 1 _
  have eh : ((h - 1) / st + 1 - 1) / 1 + 1 = (h - 1) / st + 1 := by
    rw [Nat.div_one, Nat.add_sub_cancel]
  have ew : ((w - 1) / st + 1 - 1) / 1 + 1 = (w - 1) / st + 1 := by
    rw [Nat.div_one, Nat.add_sub_cancel]
  simp only [BasicBlock.forwardShape, BasicBlock.mainPathShape]
  rw [conv3x3_shape ip d st false N ip h w rfl hh hw hst, Option.some_bind,
    bnShape_ok d _ rfl, Option.some_bind,
    conv3x3_shape d pl 1 false N d _ _ rfl hh' hw' le_rfl, Option.some_bind,
    bnShape_ok pl _ rfl, Option.some_bind, eh, ew]
  by_cases hproj : st ≠ 1 ∨ ip ≠ d
  · rw [if_pos hproj]
    simp only [shortcutShape]
    rw [conv1x1_shape ip pl st false N ip h w rfl hh hw hst, Option.some_bind,
      bnShape_ok pl _ rfl, Option.some_bind, addInPlaceShape_self]
  · push_neg at hproj
    obtain ⟨h1, h2⟩ := hproj
    have hpl : pl = ip := hid h1 h2
    rw [if_neg (by simp [h1, h2])]
    simp only [shortcutShape, Option.some_bind]
    have ehh : (h - 1) / st + 1 = h := by subst h1; rw [Nat.div_one]; omega
    have eww : (w - 1) / st + 1 = w := by subst h1; rw [Nat.div_one]; omega
    rw [ehh, eww, hpl, h2, addInPlaceShape_self]

theorem shift_forward_shape (ip op st : ℕ) (e : ℚ) (N h w : ℕ)
    (hh : 1 ≤ h) (hw : 1 ≤ w) (hst : 1 ≤ st) :
    (ShiftConv.init ip op st e).forwardShape ⟨N, ip, h, w⟩ =
      some ⟨N, op, (h - 1) / st + 1, (w - 1) / st + 1⟩ := by
  simp only [ShiftConv.forwardShape, ShiftConv.mainPathShape, ShiftConv.init]
  set mid := pyIntNat ((op : ℚ) * e) with hmid
  have ehh : (h - 1) / 1 + 1 = h := by rw [Nat.div_one]; omega
  have eww : (w - 1) / 1 + 1 = w := by rw [Nat.div_one]; omega
  have c1 : conv2dShape ⟨ip, mid, 1, 1, 0, false⟩ ⟨N, ip, h, w⟩
      = some ⟨N, mid, (h - 1) / 1 + 1, (w - 1) / 1 + 1⟩ :=
    conv1x1_shape ip mid 1 false N ip h w rfl hh hw le_rfl
  rw [ehh, eww] at c1
  have c2 : conv2dShape ⟨mid, op, 1, st, 0, false⟩ ⟨N, mid, h, w⟩
      = some ⟨N, op, (h - 1) / st + 1, (w - 1) / st + 1⟩ :=
    conv1x1_shape mid op st false N mid h w rfl hh hw hst
  have b1 : bnShape mid ⟨N, mid, h, w⟩ = some ⟨N, mid, h, w⟩ := bnShape_ok _ _ rfl
  have b2 : bnShape op ⟨N, op, (h - 1) / st + 1, (w - 1) / st + 1⟩
      = some ⟨N, op, (h - 1) / st + 1, (w - 1) / st + 1⟩ := bnShape_ok _ _ rfl
  by_cases hproj : st ≠ 1 ∨ ip ≠ op
  · rw [if_pos hproj]
    have csc : conv2dShape ⟨ip, op, 1, st, 0, false⟩ ⟨N, ip, h, w⟩
        = some ⟨N, op, (h - 1) / st + 1, (w - 1) / st + 1⟩ :=
      conv1x1_shape ip op st false N ip h w rfl hh hw hst
    simp only [shortcutShape, csc, c1, c2, b1, b2, Option.some_bind,
      addInPlaceShape_self]
  · push_neg at hproj
    obtain ⟨h1, h2⟩ := hproj
    rw [if_neg (by simp [h1, h2])]
    subst h1
    subst h2
    rw [ehh, eww] at c2 b2
    simp only [shortcutShape, c1, c2, b1, b2, Option.some_bind]
    rw [ehh, eww, addInPlaceShape_self]

/-- A block constructor suitable for `_make_layer`: called on a stage where
either the input width already equals the stage width or the stride is not
1, it succeeds and maps a matching input shape to the stage width with the
strided spatial size. -/
def GoodBlockFun (bf : ℕ → ℕ → ℕ → Except String Block) : Prop :=
  ∀ ip pl st N h w, 1 ≤ h → 1 ≤ w → 1 ≤ st → (ip = pl ∨ st ≠ 1) →
    ∃ b, bf ip pl st = Except.ok b ∧
      Block.forwardShape b ⟨N, ip, h, w⟩ =
        some ⟨N, pl, (h - 1) / st + 1, (w - 1) / st + 1⟩

lemma basicBlockFun_good (r : ℚ) (hr : r ≠ 0) :
    GoodBlockFun (fun ip pl st =>
      (BasicBlock.init ip pl st r).map Block.basic) := by
  intro ip pl st N h w hh hw hst hfst
  obtain ⟨b, hb⟩ : ∃ b, BasicBlock.init ip pl st r = Except.ok b := by
    rw [BasicBlock.init, if_neg hr]
    exact ⟨_, rfl⟩
  refine ⟨Block.basic b, ?_, ?_⟩
  · show Except.map Block.basic (BasicBlock.init ip pl st r) = Except.ok (Block.basic b)
    rw [hb]
    rfl
  simp only [Block.forwardShape]
  refine basic_forward_shape ip pl st r hr b hb N h w hh hw hst ?_
  intro h1 _
  rcases hfst with h3 | h3
  · exact h3.symm
  · exact absurd h1 h3

lemma shiftBlockFun_good (e : ℚ) : GoodBlockFun (shiftBlockFun e) := by
  intro ip pl st N h w hh hw hst _
  exact ⟨Block.shiftc (ShiftConv.init ip pl st e), rfl, by
    simp only [Block.forwardShape]
    exact shift_forward_shape ip pl st e N h w hh hw hst⟩

lemma seqForward_cons (b : Block) (bs : List Block) (s : Shape) :
    seqForward (b :: bs) s =
      (Block.forwardShape b s).bind (fun t => seqForward bs t) := by
  cases hfs : Block.forwardShape b s <;>
    simp [seqForward, List.foldlM_cons, hfs]

lemma makeLayerAux_cons (bf : ℕ → ℕ → ℕ → Except String Block)
    (ip pl st : ℕ) (sts : List ℕ) (b : Block) (bs : List Block) (fp : ℕ)
    (hb : bf ip pl st = Except.ok b)
    (hrest : makeLayerAux bf pl pl sts = Except.ok (bs, fp)) :
    makeLayerAux bf ip pl (st :: sts) = Except.ok (b :: bs, fp) := by
  simp only [makeLayerAux]
  rw [hb, hrest]
  rfl

lemma stage_shape_aux (bf : ℕ → ℕ → ℕ → Except String Block)
    (hbf : GoodBlockFun bf) (pl : ℕ) :
    ∀ k : ℕ, ∃ bs, makeLayerAux bf pl pl (List.replicate k 1) =
        Except.ok (bs, pl) ∧ bs.length = k ∧
      ∀ N h w, 1 ≤ h → 1 ≤ w →
        seqForward bs ⟨N, pl, h, w⟩ = some ⟨N, pl, h, w⟩ := by
  intro k
  induction k with
  | zero => exact ⟨[], rfl, rfl, fun N h w _ _ => rfl⟩
  | succ k ih =>
    obtain ⟨bs, hmk, hlen, hfor⟩ := ih
    obtain ⟨b, hb, _⟩ := hbf pl pl 1 0 1 1 le_rfl le_rfl le_rfl (Or.inl rfl)
    refine ⟨b :: bs, ?_, by simp [hlen], ?_⟩
    · rw [List.replicate_succ]
      exact makeLayerAux_cons bf pl pl 1 _ b bs pl hb hmk
    · intro N h w hh hw
      obtain ⟨b2, hb2, hfwd2⟩ := hbf pl pl 1 N h w hh hw le_rfl (Or.inl rfl)
      have hbb : b = b2 := by
        have h12 := hb.symm.trans hb2
        injection h12
      have ehh : (h - 1) / 1 + 1 = h := by rw [Nat.div_one]; omega
      have eww : (w - 1) / 1 + 1 = w := by rw [Nat.div_one]; omega
      rw [seqForward_cons, hbb, hfwd2, ehh, eww, Option.some_bind]
      exact hfor N h w hh hw

lemma stage_shape (bf : ℕ → ℕ → ℕ → Except String Block)
    (hbf : GoodBlockFun bf) (ip pl n st : ℕ)
    (hst : 1 ≤ st) (hfst : ip = pl ∨ st ≠ 1) :
    ∃ bs, ResNet.make_layer bf ip pl n st = Except.ok (bs, pl) ∧
      bs.length = n - 1 + 1 ∧
      ∀ N h w, 1 ≤ h → 1 ≤ w →
        seqForward bs ⟨N, ip, h, w⟩ =
          some ⟨N, pl, (h - 1) / st + 1, (w - 1) / st + 1⟩ := by
  obtain ⟨bs, hmk, hlen, hfor⟩ := stage_shape_aux bf hbf pl (n - 1)
  obtain ⟨b, hb, _⟩ := hbf ip pl st 0 1 1 le_rfl le_rfl hst hfst
  refine ⟨b :: bs, makeLayerAux_cons bf ip pl st _ b bs pl hb hmk,
    by simp [hlen], ?_⟩
  intro N h w hh hw
  obtain ⟨b2, hb2, hfwd2⟩ := hbf ip pl st N h w hh hw hst hfst
  have hbb : b = b2 := by
    have h12 := hb.symm.trans hb2
    injection h12
  rw [seqForward_cons, hbb, hfwd2, Option.some_bind]
  exact hfor N _ _ (Nat.le_add_left 1 _) (Nat.le_add_left 1 _)

lemma exceptOkBind {α β : Type} (a : α) (f : α → Except String β) :
    (Except.ok a).bind f = f a := rfl

lemma exceptOkMap {α β : Type} (a : α) (f : α → β) :
    (Except.ok (ε := String) a).map f = Except.ok (f a) := rfl

lemma resnet_shape_master (bf : ℕ → ℕ → ℕ → Except String Block)
    (hbf : GoodBlockFun bf) (n1 n2 n3 : ℕ) (rest : List ℕ) (r : ℚ)
    (hr : 0 < r) (nc : ℕ) :
    ∃ m, ResNet.init bf (n1 :: n2 :: n3 :: rest) r nc = Except.ok m ∧
      m.conv1 = ⟨3, netWidth 16 r, 3, 1, 1, false⟩ ∧
      m.bn1 = netWidth 16 r ∧
      m.layer1.length = n1 - 1 + 1 ∧
      m.layer2.length = n2 - 1 + 1 ∧
      m.layer3.length = n3 - 1 + 1 ∧
      m.linear = (netWidth 64 r, nc) ∧
      ∀ N : ℕ, m.forwardShape ⟨N, 3, 32, 32⟩ = some (N, nc) := by
  obtain ⟨bs1, hmk1, hlen1, hfor1⟩ :=
    stage_shape bf hbf (netWidth 16 r) (netWidth 16 r) n1 1 le_rfl (Or.inl rfl)
  obtain ⟨bs2, hmk2, hlen2, hfor2⟩ :=
    stage_shape bf hbf (netWidth 16 r) (netWidth 32 r) n2 2 (by norm_num)
      (Or.inr (by norm_num))
  obtain ⟨bs3, hmk3, hlen3, hfor3⟩ :=
    stage_shape bf hbf (netWidth 32 r) (netWidth 64 r) n3 2 (by norm_num)
      (Or.inr (by norm_num))
  refine ⟨{ conv1 := ⟨3, netWidth 16 r, 3, 1, 1, false⟩, bn1 := netWidth 16 r,
            layer1 := bs1, layer2 := bs2, layer3 := bs3,
            linear := (netWidth 64 r, nc) }, ?_, rfl, rfl, hlen1, hlen2, hlen3,
          rfl, ?_⟩
  · simp only [ResNet.init]
    rw [if_neg (not_lt.mpr hr.le), if_neg hr.ne']
    simp only [pyIndex, List.get?, exceptOkBind, hmk1, hmk2, hmk3, exceptOkMap]
  · intro N
    simp only [ResNet.forwardShape]
    have e1 : (32 - 1) / 1 + 1 = 32 := by norm_num
    have e2 : (32 - 1) / 2 + 1 = 16 := by norm_num
    have e3 : (16 - 1) / 2 + 1 = 8 := by norm_num
    have hc1 := conv3x3_shape 3 (netWidth 16 r) 1 false N 3 32 32 rfl
      (by norm_num) (by norm_num) le_rfl
    rw [e1] at hc1
    have hb1 : bnShape (netWidth 16 r) ⟨N, netWidth 16 r, 32, 32⟩
        = some ⟨N, netWidth 16 r, 32, 32⟩ := bnShape_ok _ _ rfl
    have hf1 := hfor1 N 32 32 (by norm_num) (by norm_num)
    rw [e1] at hf1
    have hf2 := hfor2 N 32 32 (by norm_num) (by norm_num)
    rw [e2] at hf2
    have hf3 := hfor3 N 16 16 (by norm_num) (by norm_num)
    rw [e3] at hf3
    have hap : avgPool2dShape 8 ⟨N, netWidth 64 r, 8, 8⟩
        = some ⟨N, netWidth 64 r, 1, 1⟩ := by
      simp [avgPool2dShape]
    have hlin : linearShape (netWidth 64 r, nc) (N, netWidth 64 r * 1 * 1)
        = some (N, nc) := by
      simp [linearShape]
    simp only [hc1, Option.some_bind, hb1, hf1, hf2, hf3, hap, hlin]

lemma wrapper_master (n1 n2 n3 : ℕ) (r : ℚ) (hr : 0 < r) (mode : String)
    (nc : ℕ) :
    ∃ m, ResNetWrapper [n1, n2, n3] r mode nc = Except.ok m ∧
      m.layer1.length = n1 - 1 + 1 ∧ m.layer2.length = n2 - 1 + 1 ∧
      m.layer3.length = n3 - 1 + 1 ∧
      m.linear = (netWidth 64 (if mode = "block" then 1 else r), nc) ∧
      ∀ N, m.forwardShape ⟨N, 3, 32, 32⟩ = some (N, nc) := by
  by_cases hmode : mode = "block"
  · obtain ⟨m, hok, _, _, hl1, hl2, hl3, hlin, hfwd⟩ :=
      resnet_shape_master _ (basicBlockFun_good r hr.ne') n1 n2 n3 [] 1
        one_pos nc
    refine ⟨m, ?_, hl1, hl2, hl3, ?_, hfwd⟩
    · rw [ResNetWrapper.eq_def, if_pos hmode]
      exact hok
    · rw [hlin, if_pos hmode]
  · obtain ⟨m, hok, _, _, hl1, hl2, hl3, hlin, hfwd⟩ :=
      resnet_shape_master _ (basicBlockFun_good 1 one_ne_zero) n1 n2 n3 [] r
        hr nc
    refine ⟨m, ?_, hl1, hl2, hl3, ?_, hfwd⟩
    · rw [ResNetWrapper.eq_def, if_neg hmode]
      exact hok
    · rw [hlin, if_neg hmode]

lemma shift_factory_master (n1 n2 n3 : ℕ) (e : ℚ) (nc : ℕ) :
    ∃ m, ResNet.init (shiftBlockFun e) [n1, n2, n3] 1 nc = Except.ok m ∧
      m.layer1.length = n1 - 1 + 1 ∧ m.layer2.length = n2 - 1 + 1 ∧
      m.layer3.length = n3 - 1 + 1 ∧
      m.linear = (64, nc) ∧
      ∀ N, m.forwardShape ⟨N, 3, 32, 32⟩ = some (N, nc) := by
  obtain ⟨m, hok, _, _, hl1, hl2, hl3, hlin, hfwd⟩ :=
    resnet_shape_master _ (shiftBlockFun_good e) n1 n2 n3 [] 1 one_pos nc
  exact ⟨m, hok, hl1, hl2, hl3, by rw [hlin, netWidth_one], hfwd⟩

/-! ### Claim theorems -/

/-- C1: every factory function (ResNet20/32/44/56/110 with any reduction
mode, ShiftResNet20/32/44/56/110) returns a model whose forward maps a
batch of N RGB 32x32 images (shape N x 3 x 32 x 32) to class scores of
shape N x num_classes, and the flattened feature width equals the final
linear layer's input width, `int(64 / sqrt(reduction))` for the reduction
carried by the built ResNet (the factory reduction in net mode, 1 in block
mode and for the shift factories). -/
theorem c1_factory_forward_shape (r e : ℚ) (mode : String) (nc N : ℕ)
    (hr : 0 < r) (he : 0 ≤ e) :
    (∃ m, ResNet20 r mode nc = Except.ok m ∧
      m.forwardShape ⟨N, 3, 32, 32⟩ = some (N, nc) ∧
      m.linear.1 = Nat.floor ((64 : ℝ) /
        Real.sqrt (((if mode = "block" then 1 else r) : ℚ) : ℝ))) ∧
    (∃ m, ResNet32 r mode nc = Except.ok m ∧
      m.forwardShape ⟨N, 3, 32, 32⟩ = some (N, nc) ∧
      m.linear.1 = Nat.floor ((64 : ℝ) /
        Real.sqrt (((if mode = "block" then 1 else r) : ℚ) : ℝ))) ∧
    (∃ m, ResNet44 r mode nc = Except.ok m ∧
      m.forwardShape ⟨N, 3, 32, 32⟩ = some (N, nc) ∧
      m.linear.1 = Nat.floor ((64 : ℝ) /
        Real.sqrt (((if mode = "block" then 1 else r) : ℚ) : ℝ))) ∧
    (∃ m, ResNet56 r mode nc = Except.ok m ∧
      m.forwardShape ⟨N, 3, 32, 32⟩ = some (N, nc) ∧
      m.linear.1 = Nat.floor ((64 : ℝ) /
        Real.sqrt (((if mode = "block" then 1 else r) : ℚ) : ℝ))) ∧
    (∃ m, ResNet110 r mode nc = Except.ok m ∧
      m.forwardShape ⟨N, 3, 32, 32⟩ = some (N, nc) ∧
      m.linear.1 = Nat.floor ((64 : ℝ) /
        Real.sqrt (((if mode = "block" then 1 else r) : ℚ) : ℝ))) ∧
    (∃ m, ShiftResNet20 e nc = Except.ok m ∧
      m.forwardShape ⟨N, 3, 32, 32⟩ = some (N, nc) ∧ m.linear.1 = 64) ∧
    (∃ m, ShiftResNet32 e nc = Except.ok m ∧
      m.forwardShape ⟨N, 3, 32, 32⟩ = some (N, nc) ∧ m.linear.1 = 64) ∧
    (∃ m, ShiftResNet44 e nc = Except.ok m ∧
      m.forwardShape ⟨N, 3, 32, 32⟩ = some (N, nc) ∧ m.linear.1 = 64) ∧
    (∃ m, ShiftResNet56 e nc = Except.ok m ∧
      m.forwardShape ⟨N, 3, 32, 32⟩ = some (N, nc) ∧ m.linear.1 = 64) ∧
    (∃ m, ShiftResNet110 e nc = Except.ok m ∧
      m.forwardShape ⟨N, 3, 32, 32⟩ = some (N, nc) ∧ m.linear.1 = 64) := by
  have hsel : (0 : ℚ) < (if mode = "block" then 1 else r) := by
    split
    · exact one_pos
    · exact hr
  have hW : netWidth 64 (if mode = "block" then 1 else r) =
      Nat.floor ((64 : ℝ) /
        Real.sqrt (((if mode = "block" then 1 else r) : ℚ) : ℝ)) := by
    rw [netWidth_eq_floor _ _ hsel]
    norm_num
  have res : ∀ n : ℕ, ∃ m, ResNetWrapper [n, n, n] r mode nc = Except.ok m ∧
      m.forwardShape ⟨N, 3, 32, 32⟩ = some (N, nc) ∧
      m.linear.1 = Nat.floor ((64 : ℝ) /
        Real.sqrt (((if mode = "block" then 1 else r) : ℚ) : ℝ)) := by
    intro n
    obtain ⟨m, hok, _, _, _, hlin, hfwd⟩ := wrapper_master n n n r hr mode nc
    exact ⟨m, hok, hfwd N, by rw [hlin, ← hW]⟩
  have sres : ∀ n : ℕ, ∃ m,
      ResNet.init (shiftBlockFun e) [n, n, n] 1 nc = Except.ok m ∧
      m.forwardShape ⟨N, 3, 32, 32⟩ = some (N, nc) ∧ m.linear.1 = 64 := by
    intro n
    obtain ⟨m, hok, _, _, _, hlin, hfwd⟩ := shift_factory_master n n n e nc
    exact ⟨m, hok, hfwd N, by rw [hlin]⟩
  exact ⟨res 3, res 5, res 7, res 9, res 18, sres 3, sres 5, sres 7, sres 9,
    sres 18⟩

/-- Witness for C1 at reduction 4, expansion 1, net mode, 10 classes,
batch 2. -/
theorem c1_factory_forward_shape_witness :
    (0 : ℚ) < 4 ∧ (0 : ℚ) ≤ 1 ∧
    (∃ m, ResNet20 4 "net" 10 = Except.ok m ∧
      m.forwardShape ⟨2, 3, 32, 32⟩ = some (2, 10) ∧
      m.linear.1 = Nat.floor ((64 : ℝ) /
        Real.sqrt ((((if ("net" : String) = "block" then 1 else 4) : ℚ)) : ℝ))) :=
  ⟨by norm_num, by norm_num,
    (c1_factory_forward_shape 4 1 "net" 10 2 (by norm_num) (by norm_num)).1⟩

/-! ### Structural facts about the stages -/

/-- A block constructor that records its `planes` and `stride` arguments in
the produced block, as both `BasicBlock` and `ShiftConv` do. -/
def ArgRecording (bf : ℕ → ℕ → ℕ → Except String Block) : Prop :=
  ∀ ip pl st, ∃ b, bf ip pl st = Except.ok b ∧
    Block.planes b = pl ∧ Block.stride b = st

/-- Structure of one stage: `max n 1` blocks, the first with the stage
stride and the rest with stride 1, all with the stage width, all produced
by the block constructor at the stage width. -/
def stageProp (bf : ℕ → ℕ → ℕ → Except String Block) (l : List Block)
    (n st pl : ℕ) : Prop :=
  l.length = n - 1 + 1 ∧
  (∃ b t, l = b :: t ∧ Block.stride b = st ∧ ∀ x ∈ t, Block.stride x = 1) ∧
  (∀ x ∈ l, Block.planes x = pl) ∧
  (∀ x ∈ l, ∃ ip2 st2, bf ip2 pl st2 = Except.ok x)

lemma makeLayerAux_repl_args (bf : ℕ → ℕ → ℕ → Except String Block)
    (hbf : ArgRecording bf) (pl : ℕ) :
    ∀ k, ∃ bs, makeLayerAux bf pl pl (List.replicate k 1) =
        Except.ok (bs, pl) ∧ bs.length = k ∧
      (∀ x ∈ bs, Block.stride x = 1) ∧
      (∀ x ∈ bs, Block.planes x = pl) ∧
      (∀ x ∈ bs, ∃ ip2 st2, bf ip2 pl st2 = Except.ok x) := by
  intro k
  induction k with
  | zero => exact ⟨[], rfl, rfl, by simp, by simp, by simp⟩
  | succ k ih =>
    obtain ⟨bs, hmk, hlen, hstr, hpla, horig⟩ := ih
    obtain ⟨b, hb, hbpl, hbst⟩ := hbf pl pl 1
    refine ⟨b :: bs, ?_, by simp [hlen], ?_, ?_, ?_⟩
    · rw [List.replicate_succ]
      exact makeLayerAux_cons bf pl pl 1 _ b bs pl hb hmk
    · intro x hx
      rcases List.mem_cons.mp hx with hx | hx
      · rw [hx]; exact hbst
      · exact hstr x hx
    · intro x hx
      rcases List.mem_cons.mp hx with hx | hx
      · rw [hx]; exact hbpl
      · exact hpla x hx
    · intro x hx
      rcases List.mem_cons.mp hx with hx | hx
      · exact ⟨pl, 1, by rw [hx]; exact hb⟩
      · exact horig x hx

lemma make_layer_args (bf : ℕ → ℕ → ℕ → Except String Block)
    (hbf : ArgRecording bf) (ip pl n st : ℕ) :
    ∃ bs, ResNet.make_layer bf ip pl n st = Except.ok (bs, pl) ∧
      stageProp bf bs n st pl := by
  obtain ⟨bs, hmk, hlen, hstr, hpla, horig⟩ := makeLayerAux_repl_args bf hbf pl (n - 1)
  obtain ⟨b, hb, hbpl, hbst⟩ := hbf ip pl st
  refine ⟨b :: bs, makeLayerAux_cons bf ip pl st _ b bs pl hb hmk,
    by simp [hlen], ⟨b, bs, rfl, hbst, hstr⟩, ?_, ?_⟩
  · intro x hx
    rcases List.mem_cons.mp hx with hx | hx
    · rw [hx]; exact hbpl
    · exact hpla x hx
  · intro x hx
    rcases List.mem_cons.mp hx with hx | hx
    · exact ⟨ip, st, by rw [hx]; exact hb⟩
    · exact horig x hx

lemma resnet_args_master (bf : ℕ → ℕ → ℕ → Except String Block)
    (hbf : ArgRecording bf) (n1 n2 n3 : ℕ) (rest : List ℕ) (r : ℚ)
    (hr : 0 < r) (nc : ℕ) :
    ∃ m, ResNet.init bf (n1 :: n2 :: n3 :: rest) r nc = Except.ok m ∧
      m.conv1 = ⟨3, netWidth 16 r, 3, 1, 1, false⟩ ∧
      m.bn1 = netWidth 16 r ∧
      m.linear = (netWidth 64 r, nc) ∧
      stageProp bf m.layer1 n1 1 (netWidth 16 r) ∧
      stageProp bf m.layer2 n2 2 (netWidth 32 r) ∧
      stageProp bf m.layer3 n3 2 (netWidth 64 r) := by
  obtain ⟨bs1, hmk1, hsp1⟩ := make_layer_args bf hbf (netWidth 16 r) (netWidth 16 r) n1 1
  obtain ⟨bs2, hmk2, hsp2⟩ := make_layer_args bf hbf (netWidth 16 r) (netWidth 32 r) n2 2
  obtain ⟨bs3, hmk3, hsp3⟩ := make_layer_args bf hbf (netWidth 32 r) (netWidth 64 r) n3 2
  refine ⟨{ conv1 := ⟨3, netWidth 16 r, 3, 1, 1, false⟩, bn1 := netWidth 16 r,
            layer1 := bs1, layer2 := bs2, layer3 := bs3,
            linear := (netWidth 64 r, nc) }, ?_, rfl, rfl, rfl, hsp1, hsp2,
          hsp3⟩
  simp only [ResNet.init]
  rw [if_neg (not_lt.mpr hr.le), if_neg hr.ne']
  simp only [pyIndex, List.get?, exceptOkBind, hmk1, hmk2, hmk3, exceptOkMap]

lemma block_mainConvs_length (b : Block) : (Block.mainConvs b).length = 2 := by
  cases b <;> rfl

lemma paramLayerCount_eq (m : ResNet) :
    m.paramLayerCount =
      1 + 2 * (m.layer1.length + m.layer2.length + m.layer3.length) + 1 := by
  have hsum : ∀ l : List Block,
      ((l.map (fun b => (Block.mainConvs b).length)).sum) = 2 * l.length := by
    intro l
    induction l with
    | nil => rfl
    | cons b t ih =>
      simp only [List.map_cons, List.sum_cons, ih, block_mainConvs_length b,
        List.length_cons]
      ring
  rw [ResNet.paramLayerCount, hsum]
  simp only [List.length_append]

/-- C3: each factory selects the advertised depth: with `n` blocks per
stage (n = 3, 5, 7, 9, 18), the model holds `6 * n + 2` parameterized
convolution/linear layers (two main-path convolutions per block, the
initial convolution and the final linear layer; projection shortcuts not
counted), so ResNetK has K such layers for K = 20, 32, 44, 56, 110. -/
theorem c3_factory_depth (r : ℚ) (mode : String) (nc : ℕ) (hr : 0 < r) :
    (∃ m, ResNet20 r mode nc = Except.ok m ∧
      m.paramLayerCount = 6 * 3 + 2 ∧ m.paramLayerCount = 20) ∧
    (∃ m, ResNet32 r mode nc = Except.ok m ∧
      m.paramLayerCount = 6 * 5 + 2 ∧ m.paramLayerCount = 32) ∧
    (∃ m, ResNet44 r mode nc = Except.ok m ∧
      m.paramLayerCount = 6 * 7 + 2 ∧ m.paramLayerCount = 44) ∧
    (∃ m, ResNet56 r mode nc = Except.ok m ∧
      m.paramLayerCount = 6 * 9 + 2 ∧ m.paramLayerCount = 56) ∧
    (∃ m, ResNet110 r mode nc = Except.ok m ∧
      m.paramLayerCount = 6 * 18 + 2 ∧ m.paramLayerCount = 110) := by
  have key : ∀ n : ℕ, 1 ≤ n →
      ∃ m, ResNetWrapper [n, n, n] r mode nc = Except.ok m ∧
        m.paramLayerCount = 6 * n + 2 := by
    intro n hn
    obtain ⟨m, hok, hl1, hl2, hl3, _, _⟩ := wrapper_master n n n r hr mode nc
    refine ⟨m, hok, ?_⟩
    rw [paramLayerCount_eq, hl1, hl2, hl3]
    omega
  obtain ⟨m20, h20, hc20⟩ := key 3 (by norm_num)
  obtain ⟨m32, h32, hc32⟩ := key 5 (by norm_num)
  obtain ⟨m44, h44, hc44⟩ := key 7 (by norm_num)
  obtain ⟨m56, h56, hc56⟩ := key 9 (by norm_num)
  obtain ⟨m110, h110, hc110⟩ := key 18 (by norm_num)
  exact ⟨⟨m20, h20, hc20, by rw [hc20]⟩, ⟨m32, h32, hc32, by rw [hc32]⟩,
    ⟨m44, h44, hc44, by rw [hc44]⟩, ⟨m56, h56, hc56, by rw [hc56]⟩,
    ⟨m110, h110, hc110, by rw [hc110]⟩⟩

/-- Witness for C3 at reduction 1, net mode, 10 classes. -/
theorem c3_factory_depth_witness :
    (0 : ℚ) < 1 ∧
    (∃ m, ResNet20 1 "net" 10 = Except.ok m ∧
      m.paramLayerCount = 6 * 3 + 2 ∧ m.paramLayerCount = 20) :=
  ⟨by norm_num, (c3_factory_depth 1 "net" 10 (by norm_num)).1⟩

/-- C2 (amended): `ShiftConv.forward` returns exactly
`F(input) + shortcut(input)` for its main path `F`; `BasicBlock.forward`
returns `relu(F(input) + shortcut(input))` — the residual sum is passed
through a final ReLU before being returned. -/
theorem c2_block_residual {ι : Type}
    (conv1 bn1 conv2 bn2 shift2 sc : (ι → ℤ) → ι → ℤ) (x : ι → ℤ) :
    ShiftConv.forwardV conv1 bn1 shift2 conv2 bn2 sc x =
      specBlockOutput (ShiftConv.mainPathV conv1 bn1 shift2 conv2 bn2) sc x ∧
    BasicBlock.forwardV conv1 bn1 conv2 bn2 sc x =
      reluV (specBlockOutput (BasicBlock.mainPathV conv1 bn1 conv2 bn2) sc x) :=
  ⟨rfl, rfl⟩

/-- C2 counterexample: with identity layer functions on one-element
tensors and input value -1, `BasicBlock.forward` returns 0 while
`F(input) + shortcut(input)` is -1 — the claim that forward computes
`F(input) + shortcut(input)` fails for `BasicBlock` because of the final
ReLU applied after the residual addition. -/
theorem c2_block_residual_cex :
    BasicBlock.forwardV (ι := Fin 1) id id id id id (fun _ => -1) 0 ≠
      specBlockOutput (BasicBlock.mainPathV id id id id) id (fun _ => -1) 0 := by
  decide

/-- C8: inside `ShiftConv`, both main-path convolutions have kernel size 1
(no learned 3x3 spatial convolution exists in the block), and the shift
primitive — per the spec a parameter-free operation — holds no learned
parameters. -/
theorem c8_shift_block_pointwise (ip op st : ℕ) (e : ℚ) :
    (ShiftConv.init ip op st e).conv1.kernel_size = 1 ∧
    (ShiftConv.init ip op st e).conv2.kernel_size = 1 ∧
    (∀ cv ∈ Block.mainConvs (Block.shiftc (ShiftConv.init ip op st e)),
      cv.kernel_size = 1) ∧
    ShiftM.paramCount (ShiftConv.init ip op st e).shift2 = 0 := by
  refine ⟨rfl, rfl, ?_, rfl⟩
  intro cv hcv
  simp only [Block.mainConvs, List.mem_cons, List.not_mem_nil, or_false] at hcv
  rcases hcv with hcv | hcv <;> (rw [hcv]; rfl)

/-- C10: `ResNetWrapper` validates nothing about `reduction_mode`: every
mode other than the exact string "block" builds the identical model as
mode "net", with no error raised. -/
theorem c10_mode_fallback (nb : List ℕ) (r : ℚ) (mode : String) (nc : ℕ)
    (hmode : mode ≠ "block") :
    ResNetWrapper nb r mode nc = ResNetWrapper nb r "net" nc := by
  rw [ResNetWrapper.eq_def, ResNetWrapper.eq_def, if_neg hmode,
    if_neg (by decide)]

/-- Witness for C10 at the misspelled mode "blokc". -/
theorem c10_mode_fallback_witness :
    ResNetWrapper [3, 3, 3] 2 "blokc" 10 = ResNetWrapper [3, 3, 3] 2 "net" 10 :=
  c10_mode_fallback [3, 3, 3] 2 "blokc" 10 (by decide)

lemma basic_init_fields (ip pl st : ℕ) (r : ℚ) (hr : r ≠ 0) :
    ∃ b, BasicBlock.init ip pl st r = Except.ok b ∧
      b.in_planes = ip ∧ b.planes = pl ∧ b.stride = st ∧
      b.expansion = 1 / r ∧ b.dim = pyIntNat (1 / r * (pl : ℚ)) ∧
      (b.shortcut = none ↔ st = 1 ∧ ip = b.dim) ∧
      b.shortcut = (if st ≠ 1 ∨ ip ≠ pyIntNat (1 / r * (pl : ℚ)) then
        some ((⟨ip, pl, 1, st, 0, false⟩ : Conv2dM), pl) else none) := by
  rw [BasicBlock.init, if_neg hr]
  refine ⟨_, rfl, rfl, rfl, rfl, rfl, rfl, ?_, rfl⟩
  show (if st ≠ 1 ∨ ip ≠ pyIntNat (1 / r * (pl : ℚ)) then
      some ((⟨ip, pl, 1, st, 0, false⟩ : Conv2dM), pl) else none) = none ↔
    st = 1 ∧ ip = pyIntNat (1 / r * (pl : ℚ))
  by_cases hc : st ≠ 1 ∨ ip ≠ pyIntNat (1 / r * (pl : ℚ))
  · rw [if_pos hc]
    constructor
    · intro h
      exact absurd h (by simp)
    · intro h
      rcases hc with hc | hc
      · exact (hc h.1).elim
      · exact (hc h.2).elim
  · rw [if_neg hc]
    push_neg at hc
    simp [hc.1, hc.2]

lemma basicBlockFun_argRec (r : ℚ) (hr : r ≠ 0) :
    ArgRecording (fun ip pl st =>
      (BasicBlock.init ip pl st r).map Block.basic) := by
  intro ip pl st
  obtain ⟨b, hb, _, hpl, hst, _, _, _⟩ := basic_init_fields ip pl st r hr
  refine ⟨Block.basic b, ?_, hpl, hst⟩
  show Except.map Block.basic (BasicBlock.init ip pl st r) = _
  rw [hb]
  rfl

lemma shiftBlockFun_argRec (e : ℚ) : ArgRecording (shiftBlockFun e) :=
  fun ip pl st => ⟨Block.shiftc (ShiftConv.init ip pl st e), rfl, rfl, rfl⟩

lemma pyIntNat_natCast (n : ℕ) : pyIntNat (n : ℚ) = n := by
  simp [pyIntNat_def]

/-- C4 (amended): for every arg-recording block type and per-stage counts
at least 1, the assembled network has exactly three stages of the given
sizes; blocks of stage s all have width `int(16 * 2 ^ (s - 1) / sqrt
reduction)` and these widths are non-decreasing across stages; stage 1
uses stride 1 throughout while in stages 2 and 3 only the first block has
stride 2 and the rest stride 1.  (For a stage count of 0 the code still
creates one block — see the counterexample — hence the `1 ≤ n` bounds.) -/
theorem c4_stage_structure (bf : ℕ → ℕ → ℕ → Except String Block)
    (hbf : ArgRecording bf) (n1 n2 n3 nc : ℕ) (r : ℚ)
    (h1 : 1 ≤ n1) (h2 : 1 ≤ n2) (h3 : 1 ≤ n3) (hr : 0 < r) :
    ∃ m, ResNet.init bf [n1, n2, n3] r nc = Except.ok m ∧
      m.layer1.length = n1 ∧ m.layer2.length = n2 ∧ m.layer3.length = n3 ∧
      (∀ b ∈ m.layer1, Block.stride b = 1) ∧
      (∀ b ∈ m.layer1,
        Block.planes b = Nat.floor ((16 : ℝ) / Real.sqrt (r : ℝ))) ∧
      (∃ b t, m.layer2 = b :: t ∧ Block.stride b = 2 ∧
        ∀ x ∈ t, Block.stride x = 1) ∧
      (∀ b ∈ m.layer2,
        Block.planes b = Nat.floor ((32 : ℝ) / Real.sqrt (r : ℝ))) ∧
      (∃ b t, m.layer3 = b :: t ∧ Block.stride b = 2 ∧
        ∀ x ∈ t, Block.stride x = 1) ∧
      (∀ b ∈ m.layer3,
        Block.planes b = Nat.floor ((64 : ℝ) / Real.sqrt (r : ℝ))) ∧
      Nat.floor ((16 : ℝ) / Real.sqrt (r : ℝ)) ≤
        Nat.floor ((32 : ℝ) / Real.sqrt (r : ℝ)) ∧
      Nat.floor ((32 : ℝ) / Real.sqrt (r : ℝ)) ≤
        Nat.floor ((64 : ℝ) / Real.sqrt (r : ℝ)) := by
  have e16 : netWidth 16 r = Nat.floor ((16 : ℝ) / Real.sqrt (r : ℝ)) := by
    rw [netWidth_eq_floor _ _ hr]
    norm_num
  have e32 : netWidth 32 r = Nat.floor ((32 : ℝ) / Real.sqrt (r : ℝ)) := by
    rw [netWidth_eq_floor _ _ hr]
    norm_num
  have e64 : netWidth 64 r = Nat.floor ((64 : ℝ) / Real.sqrt (r : ℝ)) := by
    rw [netWidth_eq_floor _ _ hr]
    norm_num
  obtain ⟨m, hok, _, _, _, ⟨hlen1, hcons1, hpla1, _⟩, ⟨hlen2, hcons2, hpla2, _⟩,
    ⟨hlen3, hcons3, hpla3, _⟩⟩ :=
    resnet_args_master bf hbf n1 n2 n3 [] r hr nc
  refine ⟨m, hok, by omega, by omega, by omega, ?_, ?_, hcons2, ?_, hcons3,
    ?_, ?_, ?_⟩
  · obtain ⟨b, t, hl, hb, ht⟩ := hcons1
    intro x hx
    rw [hl] at hx
    rcases List.mem_cons.mp hx with hx | hx
    · rw [hx]; exact hb
    · exact ht x hx
  · intro b hb
    rw [← e16]
    exact hpla1 b hb
  · intro b hb
    rw [← e32]
    exact hpla2 b hb
  · intro b hb
    rw [← e64]
    exact hpla3 b hb
  · rw [← e16, ← e32]
    exact netWidth_mono_base 16 32 r hr (by norm_num)
  · rw [← e32, ← e64]
    exact netWidth_mono_base 32 64 r hr (by norm_num)

/-- Witness for C4: BasicBlock with reduction 1, 3 blocks per stage,
reduction 4, 10 classes. -/
theorem c4_stage_structure_witness :
    ArgRecording (fun ip pl st => (BasicBlock.init ip pl st 1).map Block.basic) ∧
    (1 : ℕ) ≤ 3 ∧ (0 : ℚ) < 4 ∧
    ∃ m, ResNet.init
        (fun ip pl st => (BasicBlock.init ip pl st 1).map Block.basic)
        [3, 3, 3] 4 10 = Except.ok m ∧
      m.layer1.length = 3 ∧ m.layer2.length = 3 ∧ m.layer3.length = 3 ∧
      (∀ b ∈ m.layer1, Block.stride b = 1) ∧
      (∀ b ∈ m.layer1,
        Block.planes b = Nat.floor ((16 : ℝ) / Real.sqrt ((4 : ℚ) : ℝ))) ∧
      (∃ b t, m.layer2 = b :: t ∧ Block.stride b = 2 ∧
        ∀ x ∈ t, Block.stride x = 1) ∧
      (∀ b ∈ m.layer2,
        Block.planes b = Nat.floor ((32 : ℝ) / Real.sqrt ((4 : ℚ) : ℝ))) ∧
      (∃ b t, m.layer3 = b :: t ∧ Block.stride b = 2 ∧
        ∀ x ∈ t, Block.stride x = 1) ∧
      (∀ b ∈ m.layer3,
        Block.planes b = Nat.floor ((64 : ℝ) / Real.sqrt ((4 : ℚ) : ℝ))) ∧
      Nat.floor ((16 : ℝ) / Real.sqrt ((4 : ℚ) : ℝ)) ≤
        Nat.floor ((32 : ℝ) / Real.sqrt ((4 : ℚ) : ℝ)) ∧
      Nat.floor ((32 : ℝ) / Real.sqrt ((4 : ℚ) : ℝ)) ≤
        Nat.floor ((64 : ℝ) / Real.sqrt ((4 : ℚ) : ℝ)) :=
  ⟨basicBlockFun_argRec 1 one_ne_zero, by norm_num, by norm_num,
    c4_stage_structure _ (basicBlockFun_argRec 1 one_ne_zero) 3 3 3 10 4
      (by norm_num) (by norm_num) (by norm_num) (by norm_num)⟩

/-- Mapping of a constructed model to the length of its first stage. -/
def layer1Len (x : Except String ResNet) : Option ℕ :=
  x.toOption.map (fun m => m.layer1.length)

/-- C4 counterexample: with `num_blocks = [0, 3, 3]` the first stage
holds one block, not zero — `strides = [stride] + [1] * (0 - 1)` is
`[stride]`, so `_make_layer` still builds a single block. -/
theorem c4_stage_structure_cex :
    layer1Len (ResNet.init
      (fun ip pl st => (BasicBlock.init ip pl st 1).map Block.basic)
      [0, 3, 3] 1 10) = some 1 := by
  decide

/-- C5: in net mode every stage width (first batchnorm, block widths per
stage, final linear input) equals `int(base / sqrt(reduction))` for base
16, 32, 64; the widths are antitone in the reduction (for `1 ≤ r1 ≤ r2`
every width under r2 is at most the width under r1), and for reduction
above 1 no stage is wider than the unreduced 16/32/64. -/
theorem c5_channel_reduction (r r1 r2 : ℚ) (n1 n2 n3 nc : ℕ)
    (hr : 0 < r) (h1 : 1 ≤ r1) (h12 : r1 ≤ r2) :
    (∃ m, ResNetWrapper [n1, n2, n3] r "net" nc = Except.ok m ∧
      m.bn1 = Nat.floor ((16 : ℝ) / Real.sqrt (r : ℝ)) ∧
      (∀ b ∈ m.layer1,
        Block.planes b = Nat.floor ((16 : ℝ) / Real.sqrt (r : ℝ))) ∧
      (∀ b ∈ m.layer2,
        Block.planes b = Nat.floor ((32 : ℝ) / Real.sqrt (r : ℝ))) ∧
      (∀ b ∈ m.layer3,
        Block.planes b = Nat.floor ((64 : ℝ) / Real.sqrt (r : ℝ))) ∧
      m.linear.1 = Nat.floor ((64 : ℝ) / Real.sqrt (r : ℝ))) ∧
    (netWidth 16 r2 ≤ netWidth 16 r1 ∧ netWidth 32 r2 ≤ netWidth 32 r1 ∧
      netWidth 64 r2 ≤ netWidth 64 r1) ∧
    (1 < r → netWidth 16 r ≤ 16 ∧ netWidth 32 r ≤ 32 ∧
      netWidth 64 r ≤ 64) := by
  have h10 : (0 : ℚ) < r1 := lt_of_lt_of_le one_pos h1
  have e16 : netWidth 16 r = Nat.floor ((16 : ℝ) / Real.sqrt (r : ℝ)) := by
    rw [netWidth_eq_floor _ _ hr]
    norm_num
  have e32 : netWidth 32 r = Nat.floor ((32 : ℝ) / Real.sqrt (r : ℝ)) := by
    rw [netWidth_eq_floor _ _ hr]
    norm_num
  have e64 : netWidth 64 r = Nat.floor ((64 : ℝ) / Real.sqrt (r : ℝ)) := by
    rw [netWidth_eq_floor _ _ hr]
    norm_num
  refine ⟨?_, ⟨netWidth_anti 16 r1 r2 h10 h12, netWidth_anti 32 r1 r2 h10 h12,
    netWidth_anti 64 r1 r2 h10 h12⟩, fun hr1 => ⟨netWidth_le_base 16 r hr1.le,
    netWidth_le_base 32 r hr1.le, netWidth_le_base 64 r hr1.le⟩⟩
  obtain ⟨m, hok, _, hbn, hlin, ⟨_, _, hpla1, _⟩, ⟨_, _, hpla2, _⟩,
    ⟨_, _, hpla3, _⟩⟩ :=
    resnet_args_master _ (basicBlockFun_argRec 1 one_ne_zero) n1 n2 n3 [] r
      hr nc
  refine ⟨m, ?_, by rw [hbn, e16], ?_, ?_, ?_, by rw [hlin, e64]⟩
  · rw [ResNetWrapper.eq_def, if_neg (by decide)]
    exact hok
  · intro b hb
    rw [← e16]
    exact hpla1 b hb
  · intro b hb
    rw [← e32]
    exact hpla2 b hb
  · intro b hb
    rw [← e64]
    exact hpla3 b hb

/-- Witness for C5 at reduction 4 and the antitone pair (1, 9). -/
theorem c5_channel_reduction_witness :
    (0 : ℚ) < 4 ∧ (1 : ℚ) ≤ 1 ∧ (1 : ℚ) ≤ 9 ∧
    ((∃ m, ResNetWrapper [3, 3, 3] 4 "net" 10 = Except.ok m ∧
      m.bn1 = Nat.floor ((16 : ℝ) / Real.sqrt ((4 : ℚ) : ℝ)) ∧
      (∀ b ∈ m.layer1,
        Block.planes b = Nat.floor ((16 : ℝ) / Real.sqrt ((4 : ℚ) : ℝ))) ∧
      (∀ b ∈ m.layer2,
        Block.planes b = Nat.floor ((32 : ℝ) / Real.sqrt ((4 : ℚ) : ℝ))) ∧
      (∀ b ∈ m.layer3,
        Block.planes b = Nat.floor ((64 : ℝ) / Real.sqrt ((4 : ℚ) : ℝ))) ∧
      m.linear.1 = Nat.floor ((64 : ℝ) / Real.sqrt ((4 : ℚ) : ℝ))) ∧
    (netWidth 16 9 ≤ netWidth 16 1 ∧ netWidth 32 9 ≤ netWidth 32 1 ∧
      netWidth 64 9 ≤ netWidth 64 1) ∧
    (1 < (4 : ℚ) → netWidth 16 4 ≤ 16 ∧ netWidth 32 4 ≤ 32 ∧
      netWidth 64 4 ≤ 64)) :=
  ⟨by norm_num, by norm_num, by norm_num,
    c5_channel_reduction 4 1 9 3 3 3 10 (by norm_num) (by norm_num)
      (by norm_num)⟩

/-- C6: `ResNetWrapper` with mode "block" builds a network whose stage
widths stay at the unreduced 16/32/64 while every block is a `BasicBlock`
whose intermediate width `dim` is `int(planes / reduction)`; with mode
"net" it builds a network-reduced model in which every block has per-block
reduction 1, i.e. `dim = planes`. -/
theorem c6_reduction_granularity (n1 n2 n3 nc : ℕ) (r : ℚ) (hr : 0 < r) :
    (∃ m, ResNetWrapper [n1, n2, n3] r "block" nc = Except.ok m ∧
      m.bn1 = 16 ∧ m.linear = (64, nc) ∧
      (∀ b ∈ m.layer1, ∃ bb, b = Block.basic bb ∧ bb.planes = 16 ∧
        bb.dim = pyIntNat ((16 : ℚ) / r)) ∧
      (∀ b ∈ m.layer2, ∃ bb, b = Block.basic bb ∧ bb.planes = 32 ∧
        bb.dim = pyIntNat ((32 : ℚ) / r)) ∧
      (∀ b ∈ m.layer3, ∃ bb, b = Block.basic bb ∧ bb.planes = 64 ∧
        bb.dim = pyIntNat ((64 : ℚ) / r))) ∧
    (∃ m, ResNetWrapper [n1, n2, n3] r "net" nc = Except.ok m ∧
      m.bn1 = Nat.floor ((16 : ℝ) / Real.sqrt (r : ℝ)) ∧
      m.linear.1 = Nat.floor ((64 : ℝ) / Real.sqrt (r : ℝ)) ∧
      (∀ b ∈ m.layer1 ++ m.layer2 ++ m.layer3, ∃ bb, b = Block.basic bb ∧
        bb.dim = bb.planes)) := by
  constructor
  · have hkey : ∀ pl : ℕ, ∀ b : Block,
        (∃ ip2 st2, (fun ip pl2 st =>
          (BasicBlock.init ip pl2 st r).map Block.basic) ip2 pl st2 =
            Except.ok b) →
        ∃ bb, b = Block.basic bb ∧ bb.planes = pl ∧
          bb.dim = pyIntNat ((pl : ℚ) / r) := by
      intro pl b hex
      obtain ⟨ip2, st2, hb⟩ := hex
      obtain ⟨bb, hbb, _, hpl, _, _, hdim, _⟩ :=
        basic_init_fields ip2 pl st2 r hr.ne'
      rw [show (fun ip pl2 st =>
          (BasicBlock.init ip pl2 st r).map Block.basic) ip2 pl st2 =
          Except.map Block.basic (BasicBlock.init ip2 pl st2 r) from rfl,
        hbb, exceptOkMap] at hb
      injection hb with hb
      refine ⟨bb, hb.symm, hpl, ?_⟩
      rw [hdim]
      congr 1
      ring
    obtain ⟨m, hok, _, hbn, hlin, ⟨_, _, _, horig1⟩, ⟨_, _, _, horig2⟩,
      ⟨_, _, _, horig3⟩⟩ :=
      resnet_args_master _ (basicBlockFun_argRec r hr.ne') n1 n2 n3 [] 1
        one_pos nc
    simp only [netWidth_one] at hbn hlin horig1 horig2 horig3
    refine ⟨m, ?_, hbn, hlin, ?_, ?_, ?_⟩
    · rw [ResNetWrapper.eq_def, if_pos rfl]
      exact hok
    · intro b hb
      exact hkey 16 b (horig1 b hb)
    · intro b hb
      exact hkey 32 b (horig2 b hb)
    · intro b hb
      exact hkey 64 b (horig3 b hb)
  · have hkey : ∀ pl : ℕ, ∀ b : Block,
        (∃ ip2 st2, (fun ip pl2 st =>
          (BasicBlock.init ip pl2 st 1).map Block.basic) ip2 pl st2 =
            Except.ok b) →
        ∃ bb, b = Block.basic bb ∧ bb.dim = bb.planes := by
      intro pl b hex
      obtain ⟨ip2, st2, hb⟩ := hex
      obtain ⟨bb, hbb, _, hpl, _, _, hdim, _⟩ :=
        basic_init_fields ip2 pl st2 1 one_ne_zero
      rw [show (fun ip pl2 st =>
          (BasicBlock.init ip pl2 st 1).map Block.basic) ip2 pl st2 =
          Except.map Block.basic (BasicBlock.init ip2 pl st2 1) from rfl,
        hbb, exceptOkMap] at hb
      injection hb with hb
      refine ⟨bb, hb.symm, ?_⟩
      rw [hdim, hpl]
      norm_num [pyIntNat_natCast]
    have e16 : netWidth 16 r = Nat.floor ((16 : ℝ) / Real.sqrt (r : ℝ)) := by
      rw [netWidth_eq_floor _ _ hr]
      norm_num
    have e64 : netWidth 64 r = Nat.floor ((64 : ℝ) / Real.sqrt (r : ℝ)) := by
      rw [netWidth_eq_floor _ _ hr]
      norm_num
    obtain ⟨m, hok, _, hbn, hlin, ⟨_, _, _, horig1⟩, ⟨_, _, _, horig2⟩,
      ⟨_, _, _, horig3⟩⟩ :=
      resnet_args_master _ (basicBlockFun_argRec 1 one_ne_zero) n1 n2 n3 []
        r hr nc
    refine ⟨m, ?_, by rw [hbn, e16], by rw [hlin, e64], ?_⟩
    · rw [ResNetWrapper.eq_def, if_neg (by decide)]
      exact hok
    · intro b hb
      rcases List.mem_append.mp hb with hb | hb
      · rcases List.mem_append.mp hb with hb | hb
        · exact hkey _ b (horig1 b hb)
        · exact hkey _ b (horig2 b hb)
      · exact hkey _ b (horig3 b hb)

/-- Witness for C6 at reduction 4, 3 blocks per stage, 10 classes. -/
theorem c6_reduction_granularity_witness :
    (0 : ℚ) < 4 ∧
    (∃ m, ResNetWrapper [3, 3, 3] 4 "block" 10 = Except.ok m ∧
      m.bn1 = 16 ∧ m.linear = (64, 10) ∧
      (∀ b ∈ m.layer1, ∃ bb, b = Block.basic bb ∧ bb.planes = 16 ∧
        bb.dim = pyIntNat ((16 : ℚ) / 4)) ∧
      (∀ b ∈ m.layer2, ∃ bb, b = Block.basic bb ∧ bb.planes = 32 ∧
        bb.dim = pyIntNat ((32 : ℚ) / 4)) ∧
      (∀ b ∈ m.layer3, ∃ bb, b = Block.basic bb ∧ bb.planes = 64 ∧
        bb.dim = pyIntNat ((64 : ℚ) / 4))) :=
  ⟨by norm_num, (c6_reduction_granularity 3 3 3 10 4 (by norm_num)).1⟩

/-- C7 (amended): model construction raises no error in this repository's
code provided the reduction is positive and `num_blocks` has at least
three entries (the shift factories additionally for any nonnegative
expansion); with reduction 0 the channel-width division raises a
`ZeroDivisionError` at construction — see the counterexample. -/
theorem c7_construction_no_error (n1 n2 n3 : ℕ) (rest : List ℕ) (r e : ℚ)
    (mode : String) (nc : ℕ) (hr : 0 < r) (he : 0 ≤ e) :
    (∃ m, ResNetWrapper (n1 :: n2 :: n3 :: rest) r mode nc = Except.ok m) ∧
    (∃ m, ShiftResNet20 e nc = Except.ok m) ∧
    (∃ m, ShiftResNet32 e nc = Except.ok m) ∧
    (∃ m, ShiftResNet44 e nc = Except.ok m) ∧
    (∃ m, ShiftResNet56 e nc = Except.ok m) ∧
    (∃ m, ShiftResNet110 e nc = Except.ok m) := by
  have hshift : ∀ n : ℕ, ∃ m,
      ResNet.init (shiftBlockFun e) [n, n, n] 1 nc = Except.ok m := by
    intro n
    obtain ⟨m, hok, _⟩ := shift_factory_master n n n e nc
    exact ⟨m, hok⟩
  refine ⟨?_, hshift 3, hshift 5, hshift 7, hshift 9, hshift 18⟩
  by_cases hmode : mode = "block"
  · obtain ⟨m, hok, _⟩ :=
      resnet_shape_master _ (basicBlockFun_good r hr.ne') n1 n2 n3 rest 1
        one_pos nc
    refine ⟨m, ?_⟩
    rw [ResNetWrapper.eq_def, if_pos hmode]
    exact hok
  · obtain ⟨m, hok, _⟩ :=
      resnet_shape_master _ (basicBlockFun_good 1 one_ne_zero) n1 n2 n3 rest
        r hr nc
    refine ⟨m, ?_⟩
    rw [ResNetWrapper.eq_def, if_neg hmode]
    exact hok

/-- Witness for C7 at reduction 2, expansion 3, block mode. -/
theorem c7_construction_no_error_witness :
    (0 : ℚ) < 2 ∧ (0 : ℚ) ≤ 3 ∧
    (∃ m, ResNetWrapper [3, 3, 3] 2 "block" 10 = Except.ok m) ∧
    (∃ m, ShiftResNet20 3 10 = Except.ok m) :=
  ⟨by norm_num, by norm_num,
    (c7_construction_no_error 3 3 3 [] 2 3 "block" 10 (by norm_num)
      (by norm_num)).1,
    (c7_construction_no_error 3 3 3 [] 2 3 "block" 10 (by norm_num)
      (by norm_num)).2.1⟩

/-- C7 counterexample: with reduction 0 the expression
`int(16 / float(0) ** 0.5)` in `ResNet.__init__` divides by zero and
construction raises inside this repository's code, contradicting
"for every choice of the factory parameters construction raises no
error". -/
theorem c7_construction_no_error_cex :
    ResNetWrapper [3, 3, 3] 0 "net" 10 =
      Except.error "ZeroDivisionError: float division by zero" := rfl

lemma basic_mainPath_shape (ip pl st : ℕ) (r : ℚ) (hr : r ≠ 0)
    (b : BasicBlock) (hb : BasicBlock.init ip pl st r = Except.ok b)
    (N h w : ℕ) (hh : 1 ≤ h) (hw : 1 ≤ w) (hst : 1 ≤ st) :
    b.mainPathShape ⟨N, ip, h, w⟩ =
      some ⟨N, pl, (h - 1) / st + 1, (w - 1) / st + 1⟩ := by
  rw [BasicBlock.init, if_neg hr] at hb
  simp only [Except.ok.injEq] at hb
  subst hb
  set d := pyIntNat (1 / r * (pl : ℚ)) with hd
  have hh' : 1 ≤ (h - 1) / st + 1 := Nat.le_add_left 1 _
  have hw' : 1 ≤ (w - 1) / st + 1 := Nat.le_add_left 1 _
  have eh : ((h - 1) / st + 1 - 1) / 1 + 1 = (h - 1) / st + 1 := by
    rw [Nat.div_one, Nat.add_sub_cancel]
  have ew : ((w - 1) / st + 1 - 1) / 1 + 1 = (w - 1) / st + 1 := by
    rw [Nat.div_one, Nat.add_sub_cancel]
  simp only [BasicBlock.mainPathShape]
  rw [conv3x3_shape ip d st false N ip h w rfl hh hw hst, Option.some_bind,
    bnShape_ok d _ rfl, Option.some_bind,
    conv3x3_shape d pl 1 false N d _ _ rfl hh' hw' le_rfl, Option.some_bind,
    bnShape_ok pl _ rfl, eh, ew]

/-- C9 (amended): in `BasicBlock` the shortcut is the identity exactly when
`stride == 1` and `in_planes` equals the intermediate width
`dim = int(planes / reduction)` (not the output width `planes`); when the
shortcut is the identity but `in_planes ≠ planes`, the residual addition
mixes different channel counts and the forward shape fails — except in
the degenerate case `in_planes == 1`, where broadcasting makes the
in-place addition succeed (see the counterexample), hence the `2 ≤
in_planes` bound; and under the precondition `reduction == 1` or
`in_planes ≠ dim` the residual addition is always between two tensors of
equal shape. -/
theorem c9_shortcut_identity (ip pl st : ℕ) (r : ℚ) (hr : 0 < r) :
    ∃ b, BasicBlock.init ip pl st r = Except.ok b ∧
      (b.shortcut = none ↔ st = 1 ∧ ip = b.dim) ∧
      b.dim = pyIntNat ((pl : ℚ) / r) ∧
      (∀ N h w, 1 ≤ h → 1 ≤ w → st = 1 → ip = b.dim → ip ≠ pl → 2 ≤ ip →
        b.forwardShape ⟨N, ip, h, w⟩ = none) ∧
      (∀ N h w, 1 ≤ h → 1 ≤ w → 1 ≤ st → (r = 1 ∨ ip ≠ b.dim) →
        ∃ t, b.mainPathShape ⟨N, ip, h, w⟩ = some t ∧
          shortcutShape b.shortcut ⟨N, ip, h, w⟩ = some t) := by
  obtain ⟨b, hb, hip, hpl, hst', hexp, hdim, hiff, hsc⟩ :=
    basic_init_fields ip pl st r hr.ne'
  refine ⟨b, hb, hiff, ?_, ?_, ?_⟩
  · rw [hdim]
    congr 1
    ring
  · intro N h w hh hw h1 hipd hipl hip2
    have hmain := basic_mainPath_shape ip pl st r hr.ne' b hb N h w hh hw
      (by omega)
    have ehh : (h - 1) / st + 1 = h := by subst h1; rw [Nat.div_one]; omega
    have eww : (w - 1) / st + 1 = w := by subst h1; rw [Nat.div_one]; omega
    rw [ehh, eww] at hmain
    have hscn : b.shortcut = none := hiff.mpr ⟨h1, hipd⟩
    rw [BasicBlock.forwardShape, hmain, Option.some_bind, hscn]
    simp only [shortcutShape, Option.some_bind]
    rw [addInPlaceShape, if_neg]
    intro hcond
    obtain ⟨-, hc2, -, -⟩ := hcond
    revert hc2
    show ip = pl ∨ ip = 1 → False
    rintro (hc | hc)
    · exact hipl hc
    · omega
  · intro N h w hh hw hst1 hpre
    have hmain := basic_mainPath_shape ip pl st r hr.ne' b hb N h w hh hw hst1
    by_cases hproj : st ≠ 1 ∨ ip ≠ pyIntNat (1 / r * (pl : ℚ))
    · refine ⟨⟨N, pl, (h - 1) / st + 1, (w - 1) / st + 1⟩, hmain, ?_⟩
      rw [hsc, if_pos hproj]
      simp only [shortcutShape]
      rw [conv1x1_shape ip pl st false N ip h w rfl hh hw hst1,
        Option.some_bind, bnShape_ok pl _ rfl]
    · push_neg at hproj
      obtain ⟨h1, h2⟩ := hproj
      have hipl : ip = pl := by
        rcases hpre with hone | hnd
        · subst hone
          have hq : pyIntNat (1 / (1 : ℚ) * (pl : ℚ)) = pl := by
            norm_num [pyIntNat_natCast]
          exact h2.trans hq
        · exact absurd (h2.trans hdim.symm) hnd
      have ehh : (h - 1) / st + 1 = h := by subst h1; rw [Nat.div_one]; omega
      have eww : (w - 1) / st + 1 = w := by subst h1; rw [Nat.div_one]; omega
      rw [ehh, eww] at hmain
      refine ⟨⟨N, pl, h, w⟩, hmain, ?_⟩
      rw [hiff.mpr ⟨h1, h2.trans hdim.symm⟩]
      simp only [shortcutShape]
      rw [hipl]

/-- Witness for C9 at a stage-1 block: in_planes 16, planes 16, stride 1,
reduction 1. -/
theorem c9_shortcut_identity_witness :
    (0 : ℚ) < 1 ∧
    (∃ b, BasicBlock.init 16 16 1 1 = Except.ok b ∧
      (b.shortcut = none ↔ (1 : ℕ) = 1 ∧ (16 : ℕ) = b.dim) ∧
      b.dim = pyIntNat ((16 : ℚ) / 1) ∧
      (∀ N h w, 1 ≤ h → 1 ≤ w → (1 : ℕ) = 1 → (16 : ℕ) = b.dim →
        (16 : ℕ) ≠ 16 → 2 ≤ (16 : ℕ) →
        b.forwardShape ⟨N, 16, h, w⟩ = none) ∧
      (∀ N h w, 1 ≤ h → 1 ≤ w → (1 : ℕ) ≤ 1 →
        ((1 : ℚ) = 1 ∨ (16 : ℕ) ≠ b.dim) →
        ∃ t, b.mainPathShape ⟨N, 16, h, w⟩ = some t ∧
          shortcutShape b.shortcut ⟨N, 16, h, w⟩ = some t)) :=
  ⟨by norm_num, c9_shortcut_identity 16 16 1 1 (by norm_num)⟩

/-- Intermediate width stored by a freshly constructed `BasicBlock`. -/
def basicDimOfInit (ip pl st : ℕ) (r : ℚ) : Option ℕ :=
  (BasicBlock.init ip pl st r).toOption.map (fun b => b.dim)

/-- Shortcut stored by a freshly constructed `BasicBlock`. -/
def basicShortcutOfInit (ip pl st : ℕ) (r : ℚ) : Option (Option (Conv2dM × ℕ)) :=
  (BasicBlock.init ip pl st r).toOption.map (fun b => b.shortcut)

/-- Forward shape of a freshly constructed `BasicBlock`. -/
def basicForwardOfInit (ip pl st : ℕ) (r : ℚ) (s : Shape) :
    Option (Option Shape) :=
  (BasicBlock.init ip pl st r).toOption.map (fun b => b.forwardShape s)

/-- C9 counterexample: `BasicBlock(in_planes=1, planes=2, stride=1,
reduction=2)` has `dim = int(2 / 2) = 1 = in_planes`, so the shortcut is
the identity and `in_planes ≠ planes`; the claim predicts the residual
addition fails, but the in-place addition broadcasts the single input
channel, and the forward shape succeeds with output channels 2. -/
theorem c9_shortcut_identity_cex :
    basicDimOfInit 1 2 1 2 = some 1 ∧
    basicShortcutOfInit 1 2 1 2 = some none ∧
    basicForwardOfInit 1 2 1 2 ⟨1, 1, 8, 8⟩ = some (some ⟨1, 2, 8, 8⟩) := by
  obtain ⟨b, hb, hip, hpl, hst', hexp, hdim, hiff, hsc⟩ :=
    basic_init_fields 1 2 1 2 (by norm_num)
  have hq : pyIntNat (1 / (2 : ℚ) * ((2 : ℕ) : ℚ)) = 1 := by
    have h2 : (1 / (2 : ℚ)) * ((2 : ℕ) : ℚ) = ((1 : ℕ) : ℚ) := by norm_num
    rw [h2, pyIntNat_natCast]
  have hdim1 : b.dim = 1 := by rw [hdim, hq]
  have hscn : b.shortcut = none := hiff.mpr ⟨rfl, hdim1.symm⟩
  have hmain := basic_mainPath_shape 1 2 1 2 (by norm_num) b hb 1 8 8
    (by norm_num) (by norm_num) le_rfl
  refine ⟨?_, ?_, ?_⟩
  · rw [basicDimOfInit, hb]
    show some b.dim = some 1
    rw [hdim1]
  · rw [basicShortcutOfInit, hb]
    show some b.shortcut = some none
    rw [hscn]
  · rw [basicForwardOfInit, hb]
    show some (b.forwardShape ⟨1, 1, 8, 8⟩) = some (some ⟨1, 2, 8, 8⟩)
    rw [BasicBlock.forwardShape, hmain, Option.some_bind, hscn]
    simp only [shortcutShape, Option.some_bind]
    decide
